import Mathlib

/-!
Verification of the Stitchfinn agent-gateway specification against the
repository.  The turn-dispatch core (orchestrator, idempotency store,
reliability controller, metering, voice pipeline) lives in the backend
Python services that are not part of the shipped sources; those parts are
modelled from the specification (and from the repository's own README and
checklist, which document the backend behaviour).  The frontend TypeScript
(`Frontend/src/lib/api.ts`, `Frontend/src/lib/dateUtils.ts`) is embedded
directly from its source.
-/

/-! ## Providers and metering -/

/-- The two chat providers of the repository (`'vendorA' | 'vendorB'` in
`Frontend/src/lib/api.ts`). -/
inductive Provider where
  | vendorA
  | vendorB
deriving DecidableEq, Repr

/-- Backend provider identifier strings (the backend stores providers as
strings, e.g. `VARCHAR(32)` in the migration). -/
def Provider.asString : Provider → String
  | .vendorA => "vendorA"
  | .vendorB => "vendorB"

/-- Modelled from the spec: Metering (§4.5) and the repository checklist
"Pricing table: vendorA = $0.002/1K tokens, vendorB = $0.003/1K tokens".
The backend file `Backend/app/services/metering.py` is not among the
shipped sources.  Fixed per-provider price per 1000 tokens, in dollars;
`none` for an unknown provider. -/
def pricePerThousand (provider : String) : Option ℚ :=
  if provider = "vendorA" then some (2 / 1000)
  else if provider = "vendorB" then some (3 / 1000)
  else none

/-- Modelled from the spec: pure function
`cost(provider, tokensIn, tokensOut) → decimal` (§4.5), failing only on an
unknown provider. -/
def meterCost (provider : String) (tokensIn tokensOut : ℕ) : Option ℚ :=
  (pricePerThousand provider).map
    (fun p => (((tokensIn : ℚ) + (tokensOut : ℚ)) / 1000) * p)

/-! ## The send-message response type

Embeds `SendMessageResponse` from `Frontend/src/lib/api.ts` (lines
108-115).  In the TypeScript declaration `latencyMs?: number` is an
optional field while the other five fields are required. -/

/-- The response type of `POST /sessions/.../messages` as declared by the
frontend API client: `latencyMs` is an optional field (`latencyMs?`). -/
structure SendMessageResponse where
  replyText : String
  providerUsed : Provider
  tokensIn : ℕ
  tokensOut : ℕ
  cost : ℚ
  latencyMs : Option ℕ
deriving DecidableEq, Repr

/-- The set of field names present on a serialized `SendMessageResponse`:
the five required fields always, `latencyMs` only when it is set (an
absent optional field is omitted from the JSON object). -/
def SendMessageResponse.fieldNames (r : SendMessageResponse) : List String :=
  ["replyText", "providerUsed", "tokensIn", "tokensOut", "cost"] ++
    (match r.latencyMs with
     | some _ => ["latencyMs"]
     | none => [])

/-! ## Provider adapter result and error taxonomy (spec §4.1, §7) -/

/-- Modelled from the spec: the provider-adapter `NormalizedResult`
(§3, §4.1): reply text, token counts, latency, producing provider. -/
structure NormalizedResult where
  text : String
  tokensIn : ℕ
  tokensOut : ℕ
  latencyMs : ℕ
  providerId : Provider
deriving DecidableEq, Repr

/-- Modelled from the spec: failure kinds of a provider call (§4.1):
`Transient(statusLike, retryAfterHint?)`, `Timeout`, `Fatal`. -/
inductive ErrorKind where
  | transient (retryAfterHint : Option ℕ)
  | timeout
  | fatal
deriving DecidableEq, Repr

/-- Modelled from the spec: the single aggregated failure returned when
all configured providers are exhausted, recording which providers were
tried and their terminal error kinds (§4.3 step 4). -/
structure AggError where
  tried : List (Provider × ErrorKind)
deriving DecidableEq, Repr

/-! ## Reliability controller retry schedule (spec §4.3)

Modelled from the spec: `Backend/app/services/reliability.py` is not among
the shipped sources.  The checklist documents "Retries with exponential
backoff (429, 500)" and "Respects retryAfterMs for 429". -/

/-- Outcome of one attempt against a provider, as normalized by the
provider adapter. -/
inductive AttemptOutcome where
  | success (nr : NormalizedResult)
  | failure (k : ErrorKind)
deriving DecidableEq, Repr

/-- Modelled from the spec: exponentially increasing backoff between
attempts (§4.3 step 2); `base` is the initial backoff in milliseconds and
`i` the index of the attempt that just failed. -/
def expBackoff (base i : ℕ) : ℕ := base * 2 ^ i

/-- Modelled from the spec: the wait before the next attempt after attempt
`i` failed with kind `k`: a `retryAfterHint` overrides the computed
backoff; a timeout counts as a transient failure (§4.3). -/
def nextWait (base i : ℕ) (k : ErrorKind) : ℕ :=
  match k with
  | .transient (some hint) => hint
  | _ => expBackoff base i

/-- Modelled from the spec: the retry loop of the Reliability Controller
against one provider (§4.3 steps 1-2).  `outcomes i` is the outcome of
attempt `i`; `remaining` is the remaining attempt budget.  Returns the
list of waits performed (in order) and the terminal result.  A `Fatal`
failure short-circuits the remaining retries on this provider; exhausting
the budget returns the last error kind. -/
def runRetry (outcomes : ℕ → AttemptOutcome) (base : ℕ) :
    ℕ → ℕ → List ℕ × Except ErrorKind NormalizedResult
  | _, 0 => ([], .error (.transient none))
  | i, r + 1 =>
    match outcomes i with
    | .success nr => ([], .ok nr)
    | .failure k =>
      if k = .fatal then ([], .error .fatal)
      else if r = 0 then ([], .error k)
      else
        (nextWait base i k :: (runRetry outcomes base (i + 1) r).1,
          (runRetry outcomes base (i + 1) r).2)

/-! ## Turn orchestrator with idempotency store (spec §4.2, §4.4)

Modelled from the spec: `Backend/app/services/orchestrator.py` and the
`idempotency_keys` table logic are not among the shipped sources.  The
checklist documents "Idempotency check prevents double-charge /
double-write" and "Stores response in `idempotency_keys` table". -/

/-- The composite idempotency key: (tenant, session, client key)
(spec §3, IdempotencyRecord). -/
structure TurnKey where
  tenant : ℕ
  session : ℕ
  clientKey : String
deriving DecidableEq, Repr

/-- A usage event (spec §3): tenant, agent, session, provider used,
tokens in/out, cost. -/
structure UsageEvent where
  tenant : ℕ
  agent : ℕ
  session : ℕ
  provider : Provider
  tokensIn : ℕ
  tokensOut : ℕ
  cost : ℚ
deriving DecidableEq, Repr

/-- A persisted message row: session, role, text content (spec §3). -/
structure MessageRow where
  session : ℕ
  role : String
  content : String
deriving DecidableEq, Repr

/-- Persistent state touched by the turn orchestrator: the idempotency
records, the persisted messages and usage events, and a count of
side-effecting provider dispatches that have been executed. -/
structure OrchState where
  idem : List (TurnKey × SendMessageResponse)
  messages : List MessageRow
  usage : List UsageEvent
  dispatches : ℕ
deriving DecidableEq, Repr

/-- Lookup of a composite key in the idempotency store. -/
def lookupIdem : List (TurnKey × SendMessageResponse) → TurnKey →
    Option SendMessageResponse
  | [], _ => none
  | (k, v) :: rest, tk => if k = tk then some v else lookupIdem rest tk

/-- Modelled from the spec: the response payload built from a successful
dispatch (§4.4 step Persisting): reply text, provider used, tokens, cost
via Metering, latency. -/
def responseOf (nr : NormalizedResult) : SendMessageResponse :=
  { replyText := nr.text
    providerUsed := nr.providerId
    tokensIn := nr.tokensIn
    tokensOut := nr.tokensOut
    cost := (meterCost nr.providerId.asString nr.tokensIn nr.tokensOut).getD 0
    latencyMs := some nr.latencyMs }

/-- Modelled from the spec: the usage event recorded for a successful
assistant reply (§3, §4.4). -/
def usageOf (tk : TurnKey) (agent : ℕ) (nr : NormalizedResult) : UsageEvent :=
  { tenant := tk.tenant
    agent := agent
    session := tk.session
    provider := nr.providerId
    tokensIn := nr.tokensIn
    tokensOut := nr.tokensOut
    cost := (meterCost nr.providerId.asString nr.tokensIn nr.tokensOut).getD 0 }

/-- Modelled from the spec: one turn of the Turn Orchestrator (§4.4).
`dispatch` is the outcome of the reliability-controlled dispatch that
would be executed for this turn.  If the idempotency store already holds
the key, the stored result is returned unchanged with no dispatch and no
new persistence.  Otherwise the dispatch runs: on success the user and
assistant messages, one usage event and the idempotency record are
persisted in one unit; on failure nothing new is persisted and the
aggregated error is surfaced (failures are not cached). -/
def processTurn (s : OrchState) (tk : TurnKey) (agent : ℕ) (userText : String)
    (dispatch : Except AggError NormalizedResult) :
    Except AggError SendMessageResponse × OrchState :=
  match lookupIdem s.idem tk with
  | some stored => (.ok stored, s)
  | none =>
    match dispatch with
    | .error e => (.error e, { s with dispatches := s.dispatches + 1 })
    | .ok nr =>
      let resp := responseOf nr
      (.ok resp,
        { idem := (tk, resp) :: s.idem
          messages := { session := tk.session, role := "assistant", content := nr.text } ::
            { session := tk.session, role := "user", content := userText } :: s.messages
          usage := usageOf tk agent nr :: s.usage
          dispatches := s.dispatches + 1 })

/-! ## Voice pipeline (README "Voice: STT and TTS", checklist, spec §4.6)

The backend voice route and `stt_mock.py` are not among the shipped
sources; the repository README (shipped) documents the behaviour: the mock
STT ignores the audio content and returns the fixed string
"User said something via voice.", or "Please say something." if the audio
is too short, "a placeholder so the rest of the pipeline (chat + TTS)
still runs"; the voice flow is
upload audio → mock STT → same chat flow → TTS → return audio. -/

/-- The mock speech-to-text of the repository: ignores the audio content;
yields a fixed placeholder transcript, with a distinct fixed placeholder
when the audio is below the minimum duration (README lines 79-80). -/
def sttMock (tooShort : Bool) : String :=
  if tooShort then "Please say something." else "User said something via voice."

/-- Mock text-to-speech: produces audio for the given text (a beep plus
silence with duration based on text length, per the README); modelled as
an opaque-content audio buffer tagged with its source text and a length. -/
structure AudioOut where
  sourceText : String
  lengthHint : ℕ
deriving DecidableEq, Repr

/-- The synthesis step of the voice pipeline. -/
def synthesize (text : String) : AudioOut :=
  { sourceText := text, lengthHint := text.length }

/-- A voice event row (migration `001_voice_events.sql`): correlation id,
tenant, session, transcripts, chat provider, latency. -/
structure VoiceEvent where
  correlationId : ℕ
  tenant : ℕ
  session : ℕ
  userTranscript : String
  assistantText : String
  chatProvider : Provider
deriving DecidableEq, Repr

/-- State of a voice turn: the orchestrator state plus the best-effort
`voice_events` rows and the log lines. -/
structure VoiceState where
  orch : OrchState
  voiceEvents : List VoiceEvent
  log : List String
deriving DecidableEq, Repr

/-- The response of the voice endpoint: the synthesized audio plus the
`X-Correlation-Id`, `X-Transcript` and `X-Assistant-Transcript` header
values. -/
structure VoiceResponse where
  audio : AudioOut
  correlationId : ℕ
  transcript : String
  assistantTranscript : String
deriving DecidableEq, Repr

/-- One voice turn: mock STT produces the transcript (ignoring audio
content; fixed placeholder when too short), which is fed through the same
chat flow as a text turn, then synthesized.  Voice-event persistence is
best-effort: when `persistOk` is false (e.g. the `voice_events` table is
missing) the failure is logged as a warning and the turn still returns
the audio response (README: "the voice endpoint still works; metadata is
just not persisted (a warning is logged)"). -/
def voiceTurn (tooShort : Bool) (persistOk : Bool) (corr : ℕ) (vs : VoiceState)
    (tk : TurnKey) (agent : ℕ) (dispatch : Except AggError NormalizedResult) :
    Except AggError VoiceResponse × VoiceState :=
  let transcript := sttMock tooShort
  let step := processTurn vs.orch tk agent transcript dispatch
  match step.1 with
  | .error e => (.error e, { vs with orch := step.2 })
  | .ok resp =>
    let ve : VoiceEvent :=
      { correlationId := corr
        tenant := tk.tenant
        session := tk.session
        userTranscript := transcript
        assistantText := resp.replyText
        chatProvider := resp.providerUsed }
    let vs' : VoiceState :=
      if persistOk then
        { orch := step.2, voiceEvents := ve :: vs.voiceEvents, log := vs.log }
      else
        { orch := step.2, voiceEvents := vs.voiceEvents
          log := "warning: failed to persist voice event" :: vs.log }
    (.ok { audio := synthesize resp.replyText
           correlationId := corr
           transcript := transcript
           assistantTranscript := resp.replyText }, vs')

/-! ## Frontend API client module state (`Frontend/src/lib/api.ts`) -/

/-- The module-level state of the frontend API client: the mutable
`API_BASE_URL` and `API_KEY` bindings (api.ts lines 13-14). -/
structure ApiClientState where
  baseUrl : String
  apiKey : Option String
deriving DecidableEq, Repr

/-- A fetch response as observed by the client: HTTP status and body. -/
structure FetchResponse where
  status : ℕ
  body : String
deriving DecidableEq, Repr

/-- JavaScript `Response.ok`: status in the range 200-299. -/
def FetchResponse.isOk (r : FetchResponse) : Bool :=
  decide (200 ≤ r.status) && decide (r.status < 300)

/-- Embeds `validateApiKeyOnce` (api.ts lines 207-222): performs a GET of
`/agents` with the supplied key in the `X-API-Key` header, throws on a 401
or any other non-ok status, resolves otherwise.  The module state is
threaded explicitly; the function body contains no assignment to
`API_BASE_URL` or `API_KEY`, so the state passes through every branch
unchanged.  `doFetch` maps (url, headers) to the network response. -/
def validateApiKeyOnce (st : ApiClientState)
    (doFetch : String → List (String × String) → FetchResponse)
    (key : String) : Except String Unit × ApiClientState :=
  let res := doFetch (st.baseUrl ++ "/agents")
    [("Content-Type", "application/json"), ("X-API-Key", key)]
  if res.status = 401 then
    (.error "Invalid API key", st)
  else if !res.isOk then
    (.error ("API key validation failed: " ++ toString res.status ++ " " ++ res.body), st)
  else
    (.ok (), st)

/-! ## Characters, digit strings and lexicographic comparison

`Frontend/src/lib/dateUtils.ts` manipulates dates as `YYYY-MM-DD` strings
and compares them with the JavaScript `<=` operator, which is
lexicographic by UTF-16 code unit.  All characters involved are ASCII, so
comparison by Unicode code point coincides with it. -/

/-- The decimal digit characters (JavaScript `String(n)` digits). -/
def digitChar : ℕ → Char
  | 0 => '0' | 1 => '1' | 2 => '2' | 3 => '3' | 4 => '4'
  | 5 => '5' | 6 => '6' | 7 => '7' | 8 => '8' | 9 => '9'
  | _ => '?'

/-- Decimal digit characters of `n`, most significant first, computed with
explicit fuel (any fuel of at least the digit count gives the value of
JavaScript `String(n)` for a natural `n`). -/
def natDigitsAux : ℕ → ℕ → List Char
  | 0, _ => []
  | fuel + 1, n =>
    if n < 10 then [digitChar n]
    else natDigitsAux fuel (n / 10) ++ [digitChar (n % 10)]

/-- Decimal digit characters of `n`, most significant first
(JavaScript `String(n)` for a natural number). -/
def natDigits (n : ℕ) : List Char := natDigitsAux (n + 1) n

/-- JavaScript `String(n).padStart(2, '0')`. -/
def pad2Chars (n : ℕ) : List Char :=
  if n < 10 then '0' :: natDigits n else natDigits n

/-- Three-way lexicographic comparison of character lists by code point
(the order JavaScript relational operators use on ASCII strings). -/
def lexCmp : List Char → List Char → Ordering
  | [], [] => .eq
  | [], _ :: _ => .lt
  | _ :: _, [] => .gt
  | a :: as, b :: bs =>
    if a.toNat < b.toNat then .lt
    else if b.toNat < a.toNat then .gt
    else lexCmp as bs

/-- JavaScript `a <= b` on strings. -/
def strLe (a b : String) : Bool := decide (lexCmp a.data b.data ≠ .gt)

/-! ## The proleptic Gregorian calendar as JavaScript `Date` uses it -/

/-- A calendar date as a (year, month, day) triple, month and day
1-based. -/
structure YMD where
  y : ℕ
  m : ℕ
  d : ℕ
deriving DecidableEq, Repr

/-- Gregorian leap-year rule (as implemented by JavaScript `Date`). -/
def isLeap (y : ℕ) : Bool :=
  decide (y % 4 = 0) && (decide (y % 100 ≠ 0) || decide (y % 400 = 0))

/-- Days in month `m` of year `y`. -/
def daysInMonth (y m : ℕ) : ℕ :=
  if m = 2 then (if isLeap y then 29 else 28)
  else if m = 4 ∨ m = 6 ∨ m = 9 ∨ m = 11 then 30
  else 31

/-- The calendar successor of a valid date, as computed by
`new Date(y, m - 1, d + 1)` in `nextDayStr` (dateUtils.ts lines 27-31):
day overflow rolls into the next month, December 31 rolls into January 1
of the next year. -/
def nextDay (x : YMD) : YMD :=
  if x.d + 1 ≤ daysInMonth x.y x.m then ⟨x.y, x.m, x.d + 1⟩
  else if x.m + 1 ≤ 12 then ⟨x.y, x.m + 1, 1⟩
  else ⟨x.y + 1, 1, 1⟩

/-- A well-formed `YYYY-MM-DD` date: four-digit year and a valid calendar
month/day. -/
def WellFormedYMD (x : YMD) : Prop :=
  1000 ≤ x.y ∧ x.y ≤ 9999 ∧ 1 ≤ x.m ∧ x.m ≤ 12 ∧ 1 ≤ x.d ∧
    x.d ≤ daysInMonth x.y x.m

instance (x : YMD) : Decidable (WellFormedYMD x) := by
  unfold WellFormedYMD; infer_instance

/-- Number of leap years strictly before year `y` (for `y ≥ 1`). -/
def leapsBefore (y : ℕ) : ℕ := (y - 1) / 4 - (y - 1) / 100 + (y - 1) / 400

/-- Days in the months of a common year strictly before month `m`. -/
def monthOffset : ℕ → ℕ
  | 1 => 0 | 2 => 31 | 3 => 59 | 4 => 90 | 5 => 120 | 6 => 151
  | 7 => 181 | 8 => 212 | 9 => 243 | 10 => 273 | 11 => 304 | 12 => 334
  | _ => 0

/-- Days in year `y` strictly before month `m`. -/
def daysBeforeMonth (y m : ℕ) : ℕ :=
  monthOffset m + (if isLeap y ∧ 3 ≤ m then 1 else 0)

/-- Absolute day index of a date (strictly monotone along the calendar;
used as the measure relating string comparison to calendar order). -/
def dayNum (x : YMD) : ℕ :=
  365 * x.y + leapsBefore x.y + daysBeforeMonth x.y x.m + x.d

/-! ## Rendering and parsing of `YYYY-MM-DD` strings -/

/-- The characters of the string built by `nextDayStr`:
`String(y) + '-' + String(m).padStart(2, '0') + '-' + String(d).padStart(2, '0')`. -/
def renderChars (x : YMD) : List Char :=
  natDigits x.y ++ '-' :: (pad2Chars x.m ++ '-' :: pad2Chars x.d)

/-- The `YYYY-MM-DD` string of a date. -/
def renderYMD (x : YMD) : String := ⟨renderChars x⟩

/-- Splitting a character list at `'-'` separators
(JavaScript `str.split('-')`); `acc` holds the current field reversed. -/
def splitDashAux : List Char → List Char → List (List Char)
  | acc, [] => [acc.reverse]
  | acc, c :: rest =>
    if c = '-' then acc.reverse :: splitDashAux [] rest
    else splitDashAux (c :: acc) rest

/-- JavaScript `str.split('-')` on the character list of a string. -/
def splitDash (cs : List Char) : List (List Char) := splitDashAux [] cs

/-- JavaScript `Number(s)` on a string of decimal digits. -/
def parseNat (cs : List Char) : ℕ :=
  cs.foldl (fun a c => 10 * a + (c.toNat - 48)) 0

/-- Parsing `const [y, m, d] = dateStr.split('-').map(Number)`
(dateUtils.ts lines 15 and 28). -/
def parseYMD (s : String) : YMD :=
  match (splitDash s.data).map parseNat with
  | [y, m, d] => ⟨y, m, d⟩
  | _ => ⟨0, 0, 0⟩

/-- Embeds `nextDayStr` (dateUtils.ts lines 27-31): parse, add one day via
`new Date(y, m - 1, d + 1)`, re-render with two-digit padding of month and
day. -/
def nextDayStr (s : String) : String := renderYMD (nextDay (parseYMD s))

/-! ## The date-range loop (dateUtils.ts lines 33-42) -/

/-- Embeds the `while (current <= toStr)` loop of `dateRangeChicago` with
explicit fuel: `none` means the loop was still running after `fuel`
iterations; `some l` is the value the loop body has produced.  The loop
guard is JavaScript string comparison. -/
def dateRangeAux (toStr : String) : ℕ → String → Option (List String)
  | 0, _ => none
  | fuel + 1, current =>
    if strLe current toStr then
      (dateRangeAux toStr fuel (nextDayStr current)).map (current :: ·)
    else
      some []

/-- Embeds `dateRangeChicago(fromStr, toStr)` (dateUtils.ts lines 33-42)
with explicit fuel. -/
def dateRangeChicago (fuel : ℕ) (fromStr toStr : String) : Option (List String) :=
  dateRangeAux toStr fuel fromStr

/-- The value of the (fuel-free) JavaScript `dateRangeChicago(fromStr,
toStr)` computation is `expected`: some fuel suffices and every larger
fuel yields the same value. -/
def rangeResultIs (fromStr toStr : String) (expected : List String) : Prop :=
  ∃ n, ∀ fuel, n ≤ fuel → dateRangeChicago fuel fromStr toStr = some expected

/-- The consecutive calendar dates starting at `x`: `n` dates, each the
`nextDay` successor of the previous one. -/
def iterDays : ℕ → YMD → List YMD
  | 0, _ => []
  | n + 1, x => x :: iterDays n (nextDay x)

/-! ## Epoch-day arithmetic for JavaScript `Date.UTC` and
`toLocaleDateString` (dateUtils.ts lines 7-19)

`Date.UTC(y, m - 1, d)` is the number of milliseconds since the Unix epoch
of `y-m-d` at 00:00 UTC in the proleptic Gregorian calendar, and
`toLocaleDateString('en-CA', timeZone Chicago)` formats the instant as
`YYYY-MM-DD` of the calendar date in the Chicago timezone.  The standard
civil-calendar conversions are embedded below; the Chicago UTC offset
(negative, between six and five hours west) is a parameter. -/

/-- Days since the Unix epoch of the civil date `y-m-d`
(proleptic Gregorian, the conversion underlying `Date.UTC`). -/
def daysFromCivil (y m d : ℤ) : ℤ :=
  let y' := if m ≤ 2 then y - 1 else y
  let era := Int.fdiv y' 400
  let yoe := y' - era * 400
  let mp := if 2 < m then m - 3 else m + 9
  let doy := Int.fdiv (153 * mp + 2) 5 + d - 1
  let doe := yoe * 365 + Int.fdiv yoe 4 - Int.fdiv yoe 100 + doy
  era * 146097 + doe - 719468

/-- Civil date (year, month, day) of a count of days since the Unix epoch
(inverse of `daysFromCivil`; the conversion underlying
`toLocaleDateString`). -/
def civilFromDays (z : ℤ) : ℤ × ℤ × ℤ :=
  let z' := z + 719468
  let era := Int.fdiv z' 146097
  let doe := z' - era * 146097
  let yoe := Int.fdiv (doe - Int.fdiv doe 1460 + Int.fdiv doe 36524 - Int.fdiv doe 146096) 365
  let y := yoe + era * 400
  let doy := doe - (365 * yoe + Int.fdiv yoe 4 - Int.fdiv yoe 100)
  let mp := Int.fdiv (5 * doy + 2) 153
  let d := doy - Int.fdiv (153 * mp + 2) 5 + 1
  let m := if mp < 10 then mp + 3 else mp - 9
  (if m ≤ 2 then y + 1 else y, m, d)

/-- Milliseconds in a day. -/
def dayMillis : ℤ := 86400000

/-- `new Date(t).toLocaleDateString('en-CA', timeZone 'America/Chicago')`:
the `YYYY-MM-DD` string of the Chicago-timezone calendar date containing
the instant `t` (milliseconds since epoch); `offsetAt t` is the Chicago
UTC offset in milliseconds at instant `t`. -/
def toLocaleDateStringChicago (offsetAt : ℤ → ℤ) (t : ℤ) : String :=
  let day := Int.fdiv (t + offsetAt t) dayMillis
  let c := civilFromDays day
  renderYMD ⟨c.1.toNat, c.2.1.toNat, c.2.2.toNat⟩

/-- Embeds `todayChicago()` (dateUtils.ts lines 8-10) for current instant
`now`. -/
def todayChicago (offsetAt : ℤ → ℤ) (now : ℤ) : String :=
  toLocaleDateStringChicago offsetAt now

/-- Embeds `daysAgoChicago(days)` (dateUtils.ts lines 13-19): parse
today's Chicago date, take `Date.UTC(y, m - 1, d)` (midnight UTC — the
variable is named `utcNoon` but no hour argument is passed), subtract
`days` whole days, and format the resulting instant in the Chicago
timezone. -/
def daysAgoChicago (offsetAt : ℤ → ℤ) (now : ℤ) (days : ℕ) : String :=
  let today := todayChicago offsetAt now
  let x := parseYMD today
  let utcNoon := daysFromCivil x.y x.m x.d * dayMillis
  let past := utcNoon - days * dayMillis
  toLocaleDateStringChicago offsetAt past

/-- The Chicago UTC offset during daylight-saving time (CDT, UTC-5), as a
constant offset function in milliseconds. -/
def cdtOffset : ℤ → ℤ := fun _ => -18000000

/-- A concrete instant: 2026-10-12 17:00 UTC, i.e. 2026-10-12 12:00 in
Chicago (CDT). -/
def sampleNow : ℤ := daysFromCivil 2026 10 12 * dayMillis + 17 * 3600000

/-! ## Concrete sample values used by witnesses and counterexamples -/

/-- An empty orchestrator state. -/
def emptyOrch : OrchState := ⟨[], [], [], 0⟩

/-- An empty voice-turn state. -/
def emptyVoice : VoiceState := ⟨emptyOrch, [], []⟩

/-- A sample composite idempotency key. -/
def sampleKey : TurnKey := ⟨1, 7, "key1"⟩

/-- A sample normalized provider result. -/
def sampleNR : NormalizedResult := ⟨"reply", 10, 20, 150, .vendorA⟩

/-- A sample aggregated dispatch failure. -/
def sampleAgg : AggError := ⟨[(.vendorA, .timeout), (.vendorB, .transient (some 500))]⟩

/-- Three-way comparison of natural numbers. -/
def natCmp (a b : ℕ) : Ordering :=
  if a < b then .lt else if a = b then .eq else .gt

/-- Three-way lexicographic comparison of date triples:
year, then month, then day. -/
def ymdCmp (x z : YMD) : Ordering :=
  match natCmp x.y z.y with
  | .eq =>
    match natCmp x.m z.m with
    | .eq => natCmp x.d z.d
    | o => o
  | o => o

/-- The largest well-formed `YYYY-MM-DD` date; its calendar successor has
a five-digit year, which breaks the lexicographic comparison that
`dateRangeChicago` uses as its loop guard. -/
def lastYMD : YMD := ⟨9999, 12, 31⟩


/-! # Theorems -/

/-! ## Claim C3: metering -/

/-- Claim C3: for every provider in the fixed price table and all
non-negative token counts, the metering function (a pure function by
construction) returns exactly
`(tokensIn + tokensOut) / 1000 * pricePerThousand[provider]`, with vendorA
priced at 0.002 dollars and vendorB at 0.003 dollars per thousand tokens,
and fails exactly on an unknown provider. -/
theorem claim3_metering_cost (p : String) (tokensIn tokensOut : ℕ) :
    (∀ price, pricePerThousand p = some price →
      meterCost p tokensIn tokensOut =
        some ((((tokensIn : ℚ) + (tokensOut : ℚ)) / 1000) * price))
    ∧ pricePerThousand "vendorA" = some (2 / 1000)
    ∧ pricePerThousand "vendorB" = some (3 / 1000)
    ∧ (p ≠ "vendorA" → p ≠ "vendorB" → meterCost p tokensIn tokensOut = none) := by
  refine ⟨?_, rfl, rfl, ?_⟩
  · intro price hp
    simp [meterCost, hp]
  · intro hA hB
    simp [meterCost, pricePerThousand, hA, hB]

/-- Witness for claim C3 at provider vendorA with 1000 input and 500
output tokens: the cost is (1000 + 500) / 1000 * 0.002 dollars. -/
theorem claim3_metering_cost_witness :
    meterCost "vendorA" 1000 500 =
      some ((((1000 : ℚ) + (500 : ℚ)) / 1000) * (2 / 1000)) :=
  (claim3_metering_cost "vendorA" 1000 500).1 (2 / 1000) rfl

/-! ## Claim C5: response fields of `POST /sessions/.../messages` -/

/-- Claim C5 as stated is false: the response contract declared by the
frontend (`SendMessageResponse`, api.ts lines 108-115) marks `latencyMs`
as an optional field (`latencyMs?: number`), so a successful response
without `latencyMs` is well-formed; here is one. -/
theorem claim5_latency_cex :
    "latencyMs" ∉ (SendMessageResponse.fieldNames
      { replyText := "ok", providerUsed := .vendorA, tokensIn := 1,
        tokensOut := 1, cost := 0, latencyMs := none }) := by
  decide

/-- Claim C5 (amended): every successful `POST /sessions/.../messages`
response contains all of the required fields replyText, providerUsed,
tokensIn, tokensOut and cost; `latencyMs` is optional and present exactly
when set. -/
theorem claim5_response_fields (r : SendMessageResponse) :
    "replyText" ∈ r.fieldNames ∧ "providerUsed" ∈ r.fieldNames
    ∧ "tokensIn" ∈ r.fieldNames ∧ "tokensOut" ∈ r.fieldNames
    ∧ "cost" ∈ r.fieldNames
    ∧ ("latencyMs" ∈ r.fieldNames ↔ r.latencyMs.isSome = true) := by
  rcases r with ⟨rt, p, ti, tu, c, l⟩
  cases l <;> simp [SendMessageResponse.fieldNames]

/-! ## Claim C10: `validateApiKeyOnce` leaves the module state unchanged -/

/-- Claim C10: for every input key, fetch behaviour and module state,
`validateApiKeyOnce` leaves the module-level `API_BASE_URL` and `API_KEY`
state of the API client unchanged, on success (ok status) and on both
throwing branches (401 and other non-ok statuses). -/
theorem claim10_validate_frame (st : ApiClientState)
    (doFetch : String → List (String × String) → FetchResponse)
    (key : String) :
    (validateApiKeyOnce st doFetch key).2 = st := by
  simp only [validateApiKeyOnce]
  split_ifs <;> rfl

/-! ## Claim C4: retry backoff and the `retryAfterHint` override -/

/-- Claim C4: in the reliability controller, when attempt `i` fails with a
`Transient` failure carrying a `retryAfterHint` (and budget remains), the
wait before the next attempt on that provider is exactly the hint value,
overriding the computed backoff; without a hint (plain transient or
timeout) the exponentially increasing backoff `base * 2 ^ i` is used; and
the number of attempts (waits performed plus one) never exceeds the
attempt budget. -/
theorem claim4_retry_hint (outcomes : ℕ → AttemptOutcome) (base i r h : ℕ) :
    (outcomes i = .failure (.transient (some h)) → 2 ≤ r →
      (runRetry outcomes base i r).1.head? = some h)
    ∧ (outcomes i = .failure (.transient none) → 2 ≤ r →
      (runRetry outcomes base i r).1.head? = some (expBackoff base i))
    ∧ (outcomes i = .failure .timeout → 2 ≤ r →
      (runRetry outcomes base i r).1.head? = some (expBackoff base i))
    ∧ (runRetry outcomes base i r).1.length + 1 ≤ max r 1 := by
  refine ⟨?_, ?_, ?_, ?_⟩
  · intro hout hr
    obtain ⟨r', rfl⟩ : ∃ r', r = r' + 2 := ⟨r - 2, by omega⟩
    simp [runRetry, hout, nextWait]
  · intro hout hr
    obtain ⟨r', rfl⟩ : ∃ r', r = r' + 2 := ⟨r - 2, by omega⟩
    simp [runRetry, hout, nextWait]
  · intro hout hr
    obtain ⟨r', rfl⟩ : ∃ r', r = r' + 2 := ⟨r - 2, by omega⟩
    simp [runRetry, hout, nextWait]
  · induction r generalizing i with
    | zero => simp [runRetry]
    | succ r ih =>
      cases hout : outcomes i with
      | success nr => simp [runRetry, hout]
      | failure k =>
        simp only [runRetry, hout]
        split_ifs
        · simp
        · simp
        · have := ih (i + 1)
          simp only [List.length_cons]
          omega

/-- Witness for claim C4: a provider that always fails transiently with
`retryAfterHint = 500` and budget 3 waits exactly 500 before its second
attempt. -/
theorem claim4_retry_hint_witness :
    (runRetry (fun _ => .failure (.transient (some 500))) 100 0 3).1.head? =
      some 500 :=
  (claim4_retry_hint (fun _ => .failure (.transient (some 500))) 100 0 3 500).1
    rfl (by omega)

/-! ## Claim C1: idempotent replay -/

/-- Claim C1: for a fixed composite (tenant, session, idempotency key)
whose first request executed a successful dispatch, issuing the same
request a second time (whatever its dispatch would have produced) returns
the identical stored response, changes no state at all (in particular it
executes no new provider dispatch), and the pair of requests records
exactly one usage event in total. -/
theorem claim1_idempotent_replay (s : OrchState) (tk : TurnKey) (agent : ℕ)
    (userText : String) (nr : NormalizedResult)
    (d2 : Except AggError NormalizedResult)
    (hfresh : lookupIdem s.idem tk = none) :
    (processTurn (processTurn s tk agent userText (.ok nr)).2 tk agent
        userText d2).1 = (processTurn s tk agent userText (.ok nr)).1
    ∧ (processTurn (processTurn s tk agent userText (.ok nr)).2 tk agent
        userText d2).2 = (processTurn s tk agent userText (.ok nr)).2
    ∧ ((processTurn s tk agent userText (.ok nr)).2).usage.length =
        s.usage.length + 1 := by
  simp [processTurn, hfresh, lookupIdem]

/-- Witness for claim C1 on an empty store with a concrete key, dispatch
result, and a failing second dispatch. -/
theorem claim1_idempotent_replay_witness :
    (processTurn (processTurn emptyOrch sampleKey 2 "hello" (.ok sampleNR)).2
        sampleKey 2 "hello" (.error sampleAgg)).1 =
      (processTurn emptyOrch sampleKey 2 "hello" (.ok sampleNR)).1
    ∧ (processTurn (processTurn emptyOrch sampleKey 2 "hello" (.ok sampleNR)).2
        sampleKey 2 "hello" (.error sampleAgg)).2 =
      (processTurn emptyOrch sampleKey 2 "hello" (.ok sampleNR)).2
    ∧ ((processTurn emptyOrch sampleKey 2 "hello" (.ok sampleNR)).2).usage.length =
        emptyOrch.usage.length + 1 :=
  claim1_idempotent_replay emptyOrch sampleKey 2 "hello" sampleNR
    (.error sampleAgg) rfl

/-! ## Claim C2: usage events of successful and failed turns -/

/-- Claim C2: for an accepted turn (fresh idempotency key), a successful
dispatch persists exactly one new usage event (and the user/assistant
message pair), while a failed dispatch (all configured providers
exhausted) surfaces the aggregated error unchanged and persists nothing
new: no usage event, no message, no idempotency record. -/
theorem claim2_usage_events (s : OrchState) (tk : TurnKey) (agent : ℕ)
    (userText : String) (hfresh : lookupIdem s.idem tk = none) :
    (∀ nr, ((processTurn s tk agent userText (.ok nr)).2).usage =
        usageOf tk agent nr :: s.usage)
    ∧ (∀ e, (processTurn s tk agent userText (.error e)).1 = .error e
        ∧ ((processTurn s tk agent userText (.error e)).2).usage = s.usage
        ∧ ((processTurn s tk agent userText (.error e)).2).messages = s.messages
        ∧ ((processTurn s tk agent userText (.error e)).2).idem = s.idem) := by
  constructor
  · intro nr
    simp [processTurn, hfresh]
  · intro e
    simp [processTurn, hfresh]

/-- Witness for claim C2: a concrete successful turn on the empty store
appends exactly its usage event. -/
theorem claim2_usage_events_witness :
    ((processTurn emptyOrch sampleKey 2 "hello" (.ok sampleNR)).2).usage =
      usageOf sampleKey 2 sampleNR :: emptyOrch.usage :=
  (claim2_usage_events emptyOrch sampleKey 2 "hello" rfl).1 sampleNR

/-! ## Claim C6: too-short audio and the turn orchestrator -/

/-- Claim C6 as stated is false on the repository: per the README, the
mock speech-to-text returns the fixed placeholder "Please say something."
for too-short audio precisely "so the rest of the pipeline (chat + TTS)
still runs".  In this concrete too-short voice turn the turn orchestrator
is invoked (one provider dispatch, one usage event, a persisted message
pair), and the fixed text is not a "please speak again" text. -/
theorem claim6_short_audio_cex :
    ((voiceTurn true true 99 emptyVoice sampleKey 2 (.ok sampleNR)).2).orch.dispatches = 1
    ∧ ((voiceTurn true true 99 emptyVoice sampleKey 2 (.ok sampleNR)).2).orch.usage.length = 1
    ∧ ((voiceTurn true true 99 emptyVoice sampleKey 2 (.ok sampleNR)).2).orch.messages.length = 2
    ∧ sttMock true = "Please say something."
    ∧ sttMock true ≠ "please speak again" := by
  decide

/-- Claim C6 (amended): for every voice turn whose audio is below the
minimum duration, the mock speech-to-text yields the fixed placeholder
transcript "Please say something." (ignoring the audio content), and that
transcript is fed through the turn orchestrator exactly like a text turn:
on a successful dispatch the turn dispatches, persists the placeholder as
the user message, records a usage event, and synthesizes the assistant
reply. -/
theorem claim6_short_audio_placeholder (vs : VoiceState) (tk : TurnKey)
    (agent corr : ℕ) (persistOk : Bool) (nr : NormalizedResult)
    (hfresh : lookupIdem vs.orch.idem tk = none) :
    sttMock true = "Please say something."
    ∧ ((voiceTurn true persistOk corr vs tk agent (.ok nr)).2).orch.dispatches =
        vs.orch.dispatches + 1
    ∧ ((voiceTurn true persistOk corr vs tk agent (.ok nr)).2).orch.usage =
        usageOf tk agent nr :: vs.orch.usage
    ∧ ({ session := tk.session, role := "user",
          content := "Please say something." } : MessageRow) ∈
        ((voiceTurn true persistOk corr vs tk agent (.ok nr)).2).orch.messages
    ∧ (voiceTurn true persistOk corr vs tk agent (.ok nr)).1 =
        .ok { audio := synthesize nr.text, correlationId := corr,
              transcript := "Please say something.",
              assistantTranscript := nr.text } := by
  refine ⟨rfl, ?_, ?_, ?_, ?_⟩ <;>
    cases persistOk <;>
      simp [voiceTurn, processTurn, hfresh, sttMock, responseOf]

/-- Witness for claim C6 (amended) on a concrete too-short voice turn. -/
theorem claim6_short_audio_placeholder_witness :
    sttMock true = "Please say something."
    ∧ ((voiceTurn true true 99 emptyVoice sampleKey 2 (.ok sampleNR)).2).orch.dispatches =
        emptyVoice.orch.dispatches + 1
    ∧ ((voiceTurn true true 99 emptyVoice sampleKey 2 (.ok sampleNR)).2).orch.usage =
        usageOf sampleKey 2 sampleNR :: emptyVoice.orch.usage
    ∧ ({ session := sampleKey.session, role := "user",
          content := "Please say something." } : MessageRow) ∈
        ((voiceTurn true true 99 emptyVoice sampleKey 2 (.ok sampleNR)).2).orch.messages
    ∧ (voiceTurn true true 99 emptyVoice sampleKey 2 (.ok sampleNR)).1 =
        .ok { audio := synthesize sampleNR.text, correlationId := 99,
              transcript := "Please say something.",
              assistantTranscript := sampleNR.text } :=
  claim6_short_audio_placeholder emptyVoice sampleKey 2 99 true sampleNR rfl

/-! ## Claim C7: best-effort voice-event persistence -/

/-- Claim C7: for every voice turn, a failure to persist the voice-event
metadata row (e.g. the `voice_events` table is missing) never changes the
response: the turn returns exactly what it returns when persistence works
(in particular the audio response is still returned on success), the
orchestrator state is the same, and the failure is logged as a warning. -/
theorem claim7_voice_event_best_effort (tooShort : Bool) (corr : ℕ)
    (vs : VoiceState) (tk : TurnKey) (agent : ℕ)
    (d : Except AggError NormalizedResult) :
    (voiceTurn tooShort false corr vs tk agent d).1 =
      (voiceTurn tooShort true corr vs tk agent d).1
    ∧ ((voiceTurn tooShort false corr vs tk agent d).2).orch =
        ((voiceTurn tooShort true corr vs tk agent d).2).orch
    ∧ (∀ resp, (voiceTurn tooShort false corr vs tk agent d).1 = .ok resp →
        "warning: failed to persist voice event" ∈
          ((voiceTurn tooShort false corr vs tk agent d).2).log) := by
  unfold voiceTurn
  rcases h : (processTurn vs.orch tk agent (sttMock tooShort) d).1 with e | resp <;>
    simp [h]

/-- Witness for claim C7: a concrete successful voice turn whose
voice-event persistence fails still returns the audio response and logs
the warning. -/
theorem claim7_voice_event_best_effort_witness :
    (voiceTurn true false 99 emptyVoice sampleKey 2 (.ok sampleNR)).1 =
      (voiceTurn true true 99 emptyVoice sampleKey 2 (.ok sampleNR)).1
    ∧ ((voiceTurn true false 99 emptyVoice sampleKey 2 (.ok sampleNR)).2).orch =
        ((voiceTurn true true 99 emptyVoice sampleKey 2 (.ok sampleNR)).2).orch
    ∧ "warning: failed to persist voice event" ∈
        ((voiceTurn true false 99 emptyVoice sampleKey 2 (.ok sampleNR)).2).log := by
  have h := claim7_voice_event_best_effort true 99 emptyVoice sampleKey 2
    (.ok sampleNR)
  exact ⟨h.1, h.2.1,
    h.2.2 { audio := { sourceText := "reply", lengthHint := 5 },
            correlationId := 99, transcript := "Please say something.",
            assistantTranscript := "reply" } (by rfl)⟩

/-! ## Claim C8: `daysAgoChicago` is off by one day -/

/-- Claim C8 evaluated at the failing input: with Chicago on daylight-
saving time (UTC-5) and the current instant 2026-10-12 12:00 in Chicago,
`todayChicago()` is "2026-10-12" but `daysAgoChicago(0)` is "2026-10-11"
and `daysAgoChicago(3)` is "2026-10-08": each result is one day earlier
than the date the claim specifies, because `Date.UTC(y, m - 1, d)` is
midnight UTC (despite the variable name `utcNoon`), which the negative
Chicago offset shifts to the previous calendar day. -/
theorem claim8_days_ago_off_by_one :
    todayChicago cdtOffset sampleNow = "2026-10-12"
    ∧ daysAgoChicago cdtOffset sampleNow 0 = "2026-10-11"
    ∧ daysAgoChicago cdtOffset sampleNow 3 = "2026-10-08"
    ∧ daysAgoChicago cdtOffset sampleNow 0 ≠ todayChicago cdtOffset sampleNow := by
  decide

/-! ## Digit strings: helper lemmas -/

/-- Code point of a digit character. -/
theorem digitChar_toNat {i : ℕ} (h : i < 10) : (digitChar i).toNat = 48 + i := by
  interval_cases i <;> rfl

/-- Digit characters are never the separator. -/
theorem digitChar_ne_dash {i : ℕ} (h : i < 10) : digitChar i ≠ '-' := by
  interval_cases i <;> decide

/-- One-digit numbers render as a single digit character, for any positive
fuel. -/
theorem natDigitsAux_single {f n : ℕ} (hn : n < 10) (hf : 0 < f) :
    natDigitsAux f n = [digitChar n] := by
  obtain ⟨f', rfl⟩ : ∃ f', f = f' + 1 := ⟨f - 1, by omega⟩
  simp [natDigitsAux, hn]

/-- The digit rendering does not depend on the fuel, as long as the fuel
bounds the number of digits. -/
theorem natDigitsAux_fuel : ∀ f g n : ℕ, 0 < f → 0 < g →
    n < 10 ^ f → n < 10 ^ g → natDigitsAux f n = natDigitsAux g n := by
  intro f
  induction f with
  | zero => omega
  | succ f ih =>
    intro g n _ hg hnf hng
    obtain ⟨g', rfl⟩ : ∃ g', g = g' + 1 := ⟨g - 1, by omega⟩
    by_cases hn : n < 10
    · simp [natDigitsAux, hn]
    · have hf' : 0 < f := by
        rcases Nat.eq_zero_or_pos f with h0 | h0
        · subst h0; simp at hnf; omega
        · exact h0
      have hg' : 0 < g' := by
        rcases Nat.eq_zero_or_pos g' with h0 | h0
        · subst h0; simp at hng; omega
        · exact h0
      have hdf : n / 10 < 10 ^ f := by
        rw [Nat.div_lt_iff_lt_mul (by norm_num)]
        calc n < 10 ^ (f + 1) := hnf
        _ = 10 ^ f * 10 := by ring
      have hdg : n / 10 < 10 ^ g' := by
        rw [Nat.div_lt_iff_lt_mul (by norm_num)]
        calc n < 10 ^ (g' + 1) := hng
        _ = 10 ^ g' * 10 := by ring
      simp only [natDigitsAux, hn, if_false]
      rw [ih g' (n / 10) hf' hg' hdf hdg]

/-- `natDigits` agrees with any sufficiently fueled rendering. -/
theorem natDigits_eq_aux {f n : ℕ} (hf : 0 < f) (hn : n < 10 ^ f) :
    natDigits n = natDigitsAux f n := by
  have h1 : n < 10 ^ (n + 1) := by
    calc n < 10 ^ n := Nat.lt_pow_self (by norm_num) n
    _ ≤ 10 ^ (n + 1) := Nat.pow_le_pow_right (by norm_num) (by omega)
  exact natDigitsAux_fuel (n + 1) f n (by omega) hf h1 hn

/-- Two-digit numbers render as exactly their two digit characters. -/
theorem natDigits_two {n : ℕ} (h1 : 10 ≤ n) (h2 : n < 100) :
    natDigits n = [digitChar (n / 10), digitChar (n % 10)] := by
  rw [natDigits_eq_aux (f := 2) (by omega) (by norm_num; omega)]
  have hn : ¬ n < 10 := by omega
  simp only [natDigitsAux, hn, if_false]
  rw [if_pos (show n / 10 < 10 by omega)]
  rfl

/-- `padStart(2, '0')` of a number below 100 is exactly its two digit
characters (tens digit first). -/
theorem pad2Chars_eq {n : ℕ} (h : n < 100) :
    pad2Chars n = [digitChar (n / 10), digitChar (n % 10)] := by
  unfold pad2Chars
  by_cases hn : n < 10
  · rw [if_pos hn]
    unfold natDigits
    rw [natDigitsAux_single (by omega) (by omega)]
    have h10 : n / 10 = 0 := by omega
    have hm : n % 10 = n := by omega
    rw [h10, hm]
    rfl
  · rw [if_neg hn]
    exact natDigits_two (by omega) h

/-- Four-digit numbers render as exactly their four digit characters. -/
theorem natDigits_four {n : ℕ} (h1 : 1000 ≤ n) (h2 : n < 10000) :
    natDigits n = [digitChar (n / 1000), digitChar (n / 100 % 10),
      digitChar (n / 10 % 10), digitChar (n % 10)] := by
  rw [natDigits_eq_aux (f := 4) (by omega) (by norm_num; omega)]
  have ha : ¬ n < 10 := by omega
  have hb : ¬ n / 10 < 10 := by omega
  have hc : ¬ n / 10 / 10 < 10 := by omega
  have hd : n / 10 / 10 / 10 < 10 := by omega
  simp only [natDigitsAux, ha, hb, hc, hd, if_false, if_true]
  have e0 : n / 10 / 10 = n / 100 := by omega
  have e1 : n / 10 / 10 / 10 = n / 1000 := by rw [e0]; omega
  have e2 : n / 10 / 10 % 10 = n / 100 % 10 := by rw [e0]
  rw [e1, e2]
  rfl

/-! ## Lexicographic comparison of digit blocks -/

/-- Comparing a smaller digit character first decides the comparison. -/
theorem lexCmp_dlt {a b : ℕ} (h : a < b) (hb : b < 10) (cs es : List Char) :
    lexCmp (digitChar a :: cs) (digitChar b :: es) = .lt := by
  simp only [lexCmp, digitChar_toNat (show a < 10 by omega), digitChar_toNat hb]
  rw [if_pos (by omega)]

/-- Comparing a larger digit character first decides the comparison. -/
theorem lexCmp_dgt {a b : ℕ} (h : b < a) (ha : a < 10) (cs es : List Char) :
    lexCmp (digitChar a :: cs) (digitChar b :: es) = .gt := by
  simp only [lexCmp, digitChar_toNat ha, digitChar_toNat (show b < 10 by omega)]
  rw [if_neg (by omega), if_pos (by omega)]

/-- Equal digit characters defer to the remainder. -/
theorem lexCmp_deq {a : ℕ} (ha : a < 10) (cs es : List Char) :
    lexCmp (digitChar a :: cs) (digitChar a :: es) = lexCmp cs es := by
  simp only [lexCmp, digitChar_toNat ha]
  rw [if_neg (by omega), if_neg (by omega)]

/-- Equal separator characters defer to the remainder. -/
theorem lexCmp_dash {cs es : List Char} :
    lexCmp ('-' :: cs) ('-' :: es) = lexCmp cs es := by
  simp only [lexCmp]
  rw [if_neg (by omega), if_neg (by omega)]

/-- A four-digit block of a smaller year decides the comparison. -/
theorem lexCmp_block4_lt {a b : ℕ} (ha1 : 1000 ≤ a) (ha2 : a < 10000)
    (hb1 : 1000 ≤ b) (hb2 : b < 10000) (h : a < b) (cs es : List Char) :
    lexCmp (natDigits a ++ cs) (natDigits b ++ es) = .lt := by
  rw [natDigits_four ha1 ha2, natDigits_four hb1 hb2]
  simp only [List.cons_append, List.nil_append]
  rcases Nat.lt_trichotomy (a / 1000) (b / 1000) with h1 | h1 | h1
  · exact lexCmp_dlt h1 (by omega) _ _
  · rw [h1, lexCmp_deq (by omega)]
    rcases Nat.lt_trichotomy (a / 100 % 10) (b / 100 % 10) with h2 | h2 | h2
    · exact lexCmp_dlt h2 (by omega) _ _
    · rw [h2, lexCmp_deq (by omega)]
      rcases Nat.lt_trichotomy (a / 10 % 10) (b / 10 % 10) with h3 | h3 | h3
      · exact lexCmp_dlt h3 (by omega) _ _
      · rw [h3, lexCmp_deq (by omega)]
        rcases Nat.lt_trichotomy (a % 10) (b % 10) with h4 | h4 | h4
        · exact lexCmp_dlt h4 (by omega) _ _
        · omega
        · omega
      · omega
    · omega
  · omega

/-- Equal four-digit year blocks defer to the remainder. -/
theorem lexCmp_block4_eq {a : ℕ} (ha1 : 1000 ≤ a) (ha2 : a < 10000)
    (cs es : List Char) :
    lexCmp (natDigits a ++ cs) (natDigits a ++ es) = lexCmp cs es := by
  rw [natDigits_four ha1 ha2]
  simp only [List.cons_append, List.nil_append]
  rw [lexCmp_deq (by omega), lexCmp_deq (by omega), lexCmp_deq (by omega),
    lexCmp_deq (by omega)]

/-- A four-digit block of a larger year decides the comparison. -/
theorem lexCmp_block4_gt {a b : ℕ} (ha1 : 1000 ≤ a) (ha2 : a < 10000)
    (hb1 : 1000 ≤ b) (hb2 : b < 10000) (h : b < a) (cs es : List Char) :
    lexCmp (natDigits a ++ cs) (natDigits b ++ es) = .gt := by
  rw [natDigits_four ha1 ha2, natDigits_four hb1 hb2]
  simp only [List.cons_append, List.nil_append]
  rcases Nat.lt_trichotomy (a / 1000) (b / 1000) with h1 | h1 | h1
  · omega
  · rw [h1, lexCmp_deq (by omega)]
    rcases Nat.lt_trichotomy (a / 100 % 10) (b / 100 % 10) with h2 | h2 | h2
    · omega
    · rw [h2, lexCmp_deq (by omega)]
      rcases Nat.lt_trichotomy (a / 10 % 10) (b / 10 % 10) with h3 | h3 | h3
      · omega
      · rw [h3, lexCmp_deq (by omega)]
        rcases Nat.lt_trichotomy (a % 10) (b % 10) with h4 | h4 | h4
        · omega
        · omega
        · exact lexCmp_dgt h4 (by omega) _ _
      · exact lexCmp_dgt h3 (by omega) _ _
    · exact lexCmp_dgt h2 (by omega) _ _
  · exact lexCmp_dgt h1 (by omega) _ _

/-- A two-digit block of a smaller number decides the comparison. -/
theorem lexCmp_block2_lt {a b : ℕ} (ha : a < 100) (hb : b < 100) (h : a < b)
    (cs es : List Char) :
    lexCmp (pad2Chars a ++ cs) (pad2Chars b ++ es) = .lt := by
  rw [pad2Chars_eq ha, pad2Chars_eq hb]
  simp only [List.cons_append, List.nil_append]
  rcases Nat.lt_trichotomy (a / 10) (b / 10) with h1 | h1 | h1
  · exact lexCmp_dlt h1 (by omega) _ _
  · rw [h1, lexCmp_deq (by omega)]
    rcases Nat.lt_trichotomy (a % 10) (b % 10) with h2 | h2 | h2
    · exact lexCmp_dlt h2 (by omega) _ _
    · omega
    · omega
  · omega

/-- Equal two-digit blocks defer to the remainder. -/
theorem lexCmp_block2_eq {a : ℕ} (ha : a < 100) (cs es : List Char) :
    lexCmp (pad2Chars a ++ cs) (pad2Chars a ++ es) = lexCmp cs es := by
  rw [pad2Chars_eq ha]
  simp only [List.cons_append, List.nil_append]
  rw [lexCmp_deq (by omega), lexCmp_deq (by omega)]

/-- A two-digit block of a larger number decides the comparison. -/
theorem lexCmp_block2_gt {a b : ℕ} (ha : a < 100) (hb : b < 100) (h : b < a)
    (cs es : List Char) :
    lexCmp (pad2Chars a ++ cs) (pad2Chars b ++ es) = .gt := by
  rw [pad2Chars_eq ha, pad2Chars_eq hb]
  simp only [List.cons_append, List.nil_append]
  rcases Nat.lt_trichotomy (a / 10) (b / 10) with h1 | h1 | h1
  · omega
  · rw [h1, lexCmp_deq (by omega)]
    rcases Nat.lt_trichotomy (a % 10) (b % 10) with h2 | h2 | h2
    · omega
    · omega
    · exact lexCmp_dgt h2 (by omega) _ _
  · exact lexCmp_dgt h1 (by omega) _ _

/-- `natCmp` of a smaller number. -/
theorem natCmp_lt {a b : ℕ} (h : a < b) : natCmp a b = .lt := by
  simp [natCmp, h]

/-- `natCmp` of equal numbers. -/
theorem natCmp_eq (a : ℕ) : natCmp a a = .eq := by
  simp [natCmp]

/-- `natCmp` of a larger number. -/
theorem natCmp_gt {a b : ℕ} (h : b < a) : natCmp a b = .gt := by
  unfold natCmp
  rw [if_neg (by omega), if_neg (by omega)]

/-! ## Calendar arithmetic -/

/-- Every month has at least 28 days. -/
theorem daysInMonth_pos (y m : ℕ) : 1 ≤ daysInMonth y m := by
  unfold daysInMonth
  split_ifs <;> omega

/-- No month has more than 31 days. -/
theorem daysInMonth_le (y m : ℕ) : daysInMonth y m ≤ 31 := by
  unfold daysInMonth
  split_ifs <;> omega

/-- Passing a month boundary adds that month's length. -/
theorem daysBeforeMonth_step (y m : ℕ) (h1 : 1 ≤ m) (h2 : m ≤ 11) :
    daysBeforeMonth y (m + 1) = daysBeforeMonth y m + daysInMonth y m := by
  interval_cases m <;>
    cases hL : isLeap y <;>
      simp [daysBeforeMonth, daysInMonth, monthOffset, hL]

/-- A month boundary plus the month's length stays below any later month
boundary. -/
theorem daysBeforeMonth_le (y m m' : ℕ) (h1 : 1 ≤ m) (h2 : m < m')
    (h3 : m' ≤ 12) :
    daysBeforeMonth y m + daysInMonth y m ≤ daysBeforeMonth y m' := by
  induction m' with
  | zero => omega
  | succ k ih =>
    rcases Nat.lt_or_ge m k with hk | hk
    · have hstep : daysBeforeMonth y (k + 1) = daysBeforeMonth y k + daysInMonth y k := by
        apply daysBeforeMonth_step y k (by omega) (by omega)
      have := ih hk (by omega)
      have := daysInMonth_pos y k
      omega
    · have hm : m = k := by omega
      subst hm
      rw [daysBeforeMonth_step y m (by omega) (by omega)]

/-- Day-of-year bound: any valid month/day pair stays within the year. -/
theorem daysBeforeMonth_add_day_le (y m d : ℕ) (h1 : 1 ≤ m) (h2 : m ≤ 12)
    (h4 : d ≤ daysInMonth y m) :
    daysBeforeMonth y m + d ≤ 365 + (if isLeap y then 1 else 0) := by
  interval_cases m <;>
    cases hL : isLeap y <;>
      simp [daysBeforeMonth, daysInMonth, monthOffset, hL] at h4 ⊢ <;>
        omega

/-- Crossing a year boundary adds one leap day exactly for leap years. -/
theorem leapsBefore_succ (y : ℕ) (hy : 1 ≤ y) :
    leapsBefore (y + 1) = leapsBefore y + (if isLeap y then 1 else 0) := by
  obtain ⟨a, rfl⟩ : ∃ a, y = a + 1 := ⟨y - 1, by omega⟩
  unfold leapsBefore isLeap
  have e1 : a + 1 + 1 - 1 = a + 1 := by omega
  have e2 : a + 1 - 1 = a := by omega
  rw [e1, e2]
  simp only [Bool.and_eq_true, Bool.or_eq_true, decide_eq_true_eq]
  split_ifs with h
  · omega
  · omega

/-- `leapsBefore` never decreases. -/
theorem leapsBefore_le_succ (y : ℕ) : leapsBefore y ≤ leapsBefore (y + 1) := by
  unfold leapsBefore
  omega

/-- `leapsBefore` is monotone. -/
theorem leapsBefore_mono {y y' : ℕ} (h : y ≤ y') :
    leapsBefore y ≤ leapsBefore y' := by
  induction y' with
  | zero =>
    have : y = 0 := by omega
    subst this
    exact le_rfl
  | succ k ih =>
    rcases Nat.lt_or_ge y (k + 1) with hk | hk
    · exact le_trans (ih (by omega)) (leapsBefore_le_succ k)
    · have : y = k + 1 := by omega
      subst this
      exact le_rfl

/-- Lower bound on the absolute day index. -/
theorem dayNum_lb (x : YMD) (hd : 1 ≤ x.d) :
    365 * x.y + leapsBefore x.y + 1 ≤ dayNum x := by
  unfold dayNum
  omega

/-- Upper bound on the absolute day index of a valid date. -/
theorem dayNum_ub (x : YMD) (h1 : 1 ≤ x.m) (h2 : x.m ≤ 12)
    (h4 : x.d ≤ daysInMonth x.y x.m) :
    dayNum x ≤ 365 * x.y + leapsBefore x.y + 365 +
      (if isLeap x.y then 1 else 0) := by
  unfold dayNum
  have := daysBeforeMonth_add_day_le x.y x.m x.d h1 h2 h4
  omega

/-- A strictly smaller year gives a strictly smaller day index. -/
theorem dayNum_lt_year {x z : YMD} (hx1 : 1 ≤ x.y) (hx2 : 1 ≤ x.m)
    (hx3 : x.m ≤ 12) (hx5 : x.d ≤ daysInMonth x.y x.m) (hz : 1 ≤ z.d)
    (h : x.y < z.y) : dayNum x < dayNum z := by
  have hub := dayNum_ub x hx2 hx3 hx5
  have hlb := dayNum_lb z hz
  have hstep := leapsBefore_succ x.y hx1
  have hmono : leapsBefore (x.y + 1) ≤ leapsBefore z.y := leapsBefore_mono (by omega)
  split_ifs at hub hstep <;> omega

/-- Within a year, a strictly smaller month gives a strictly smaller day
index. -/
theorem dayNum_lt_month {x z : YMD} (hy : x.y = z.y) (hx2 : 1 ≤ x.m)
    (hx5 : x.d ≤ daysInMonth x.y x.m) (hz3 : z.m ≤ 12) (hz4 : 1 ≤ z.d)
    (h : x.m < z.m) : dayNum x < dayNum z := by
  unfold dayNum
  have := daysBeforeMonth_le x.y x.m z.m hx2 h hz3
  rw [hy] at *
  omega

/-- Within a month, a strictly smaller day gives a strictly smaller day
index. -/
theorem dayNum_lt_day {x z : YMD} (hy : x.y = z.y) (hm : x.m = z.m)
    (h : x.d < z.d) : dayNum x < dayNum z := by
  unfold dayNum
  rw [hy, hm]
  omega

/-! ## Plain two-digit block comparison -/

/-- Padded two-digit renderings compare exactly as the numbers. -/
theorem lexCmp_pad2 {a b : ℕ} (ha : a < 100) (hb : b < 100) :
    lexCmp (pad2Chars a) (pad2Chars b) = natCmp a b := by
  rw [pad2Chars_eq ha, pad2Chars_eq hb]
  rcases Nat.lt_trichotomy (a / 10) (b / 10) with h1 | h1 | h1
  · rw [lexCmp_dlt h1 (by omega), natCmp_lt (by omega)]
  · rw [h1, lexCmp_deq (by omega)]
    rcases Nat.lt_trichotomy (a % 10) (b % 10) with h2 | h2 | h2
    · rw [lexCmp_dlt h2 (by omega), natCmp_lt (by omega)]
    · have hab : a = b := by omega
      subst hab
      rw [lexCmp_deq (by omega), natCmp_eq]
      rfl
    · rw [lexCmp_dgt h2 (by omega), natCmp_gt (by omega)]
  · rw [lexCmp_dgt h1 (by omega), natCmp_gt (by omega)]

/-! ## The calendar successor and the day index -/

/-- `nextDay` advances the absolute day index by exactly one. -/
theorem dayNum_nextDay {x : YMD} (h : WellFormedYMD x) :
    dayNum (nextDay x) = dayNum x + 1 := by
  obtain ⟨y, m, d⟩ := x
  obtain ⟨hy1, hy2, hm1, hm2, hd1, hd2⟩ := h
  unfold nextDay
  dsimp only at *
  split_ifs with h1 h2
  · simp only [dayNum]
    omega
  · have hdd : d = daysInMonth y m := by omega
    have hstep := daysBeforeMonth_step y m hm1 (by omega)
    simp only [dayNum]
    omega
  · have hm12 : m = 12 := by omega
    have hdd : d = daysInMonth y m := by omega
    rw [hm12] at hdd
    have hdim : daysInMonth y 12 = 31 := rfl
    rw [hdim] at hdd
    have hstep := leapsBefore_succ y (by omega)
    have hdbm12 : daysBeforeMonth y 12 = 334 + (if isLeap y then 1 else 0) := by
      cases hL : isLeap y <;>
        simp [daysBeforeMonth, hL, show monthOffset 12 = 334 from rfl]
    have hdbm1 : daysBeforeMonth (y + 1) 1 = 0 := by
      cases hL : isLeap (y + 1) <;>
        simp [daysBeforeMonth, hL, show monthOffset 1 = 0 from rfl]
    simp only [dayNum, hm12]
    split_ifs at hstep hdbm12 <;> omega

/-- `nextDay` preserves well-formedness away from the last well-formed
date. -/
theorem nextDay_wf {x : YMD} (h : WellFormedYMD x) (hne : x ≠ lastYMD) :
    WellFormedYMD (nextDay x) := by
  obtain ⟨y, m, d⟩ := x
  obtain ⟨hy1, hy2, hm1, hm2, hd1, hd2⟩ := h
  have hne' : ¬ (y = 9999 ∧ m = 12 ∧ d = 31) := by
    rintro ⟨e1, e2, e3⟩
    exact hne (by rw [e1, e2, e3]; rfl)
  unfold nextDay WellFormedYMD
  dsimp only at *
  split_ifs
  · exact ⟨hy1, hy2, hm1, hm2, by dsimp only; omega, by dsimp only; omega⟩
  · exact ⟨hy1, hy2, by dsimp only; omega, by dsimp only; omega, le_rfl,
      daysInMonth_pos _ _⟩
  · have hy99 : y ≤ 9998 := by
      by_contra hcon
      apply hne'
      have hy9 : y = 9999 := by omega
      have hm12 : m = 12 := by omega
      have hd31 : d = 31 := by
        subst hy9
        subst hm12
        have hdim : daysInMonth 9999 12 = 31 := rfl
        omega
      exact ⟨hy9, hm12, hd31⟩
    exact ⟨by dsimp only; omega, by dsimp only; omega, by dsimp only; omega,
      by dsimp only; omega, le_rfl, daysInMonth_pos _ _⟩

/-- Every well-formed date other than 9999-12-31 has a strictly smaller
day index than 9999-12-31. -/
theorem dayNum_lt_last {x : YMD} (h : WellFormedYMD x) (hne : x ≠ lastYMD) :
    dayNum x < dayNum lastYMD := by
  obtain ⟨y, m, d⟩ := x
  obtain ⟨hy1, hy2, hm1, hm2, hd1, hd2⟩ := h
  dsimp only at *
  rcases Nat.lt_trichotomy y 9999 with hy | hy | hy
  · exact dayNum_lt_year (x := ⟨y, m, d⟩) (z := lastYMD) (show 1 ≤ y by omega)
      hm1 hm2 hd2 (by decide) hy
  · subst hy
    rcases Nat.lt_trichotomy m 12 with hm | hm | hm
    · exact dayNum_lt_month (x := ⟨9999, m, d⟩) (z := lastYMD) rfl hm1 hd2
        (by decide) (by decide) hm
    · subst hm
      rcases Nat.lt_trichotomy d 31 with hd | hd | hd
      · exact dayNum_lt_day (x := ⟨9999, 12, d⟩) (z := lastYMD) rfl rfl hd
      · exact absurd (by rw [hd]; rfl) hne
      · exfalso
        have := daysInMonth_le 9999 12
        omega
    · omega
  · omega

/-- The triple comparison decides the day-index order of well-formed
dates. -/
theorem ymdCmp_gt_iff {x z : YMD} (hx : WellFormedYMD x)
    (hz : WellFormedYMD z) :
    (ymdCmp x z = .gt ↔ dayNum z < dayNum x) := by
  obtain ⟨hx1, hx2, hx3, hx4, hx5, hx6⟩ := hx
  obtain ⟨hz1, hz2, hz3, hz4, hz5, hz6⟩ := hz
  unfold ymdCmp
  rcases Nat.lt_trichotomy x.y z.y with hy | hy | hy
  · rw [natCmp_lt hy]
    have := dayNum_lt_year (by omega) hx3 hx4 hx6 hz5 hy
    simp
    omega
  · rw [hy, natCmp_eq]
    rcases Nat.lt_trichotomy x.m z.m with hm | hm | hm
    · rw [natCmp_lt hm]
      have := dayNum_lt_month hy hx3 hx6 hz4 hz5 hm
      simp
      omega
    · rw [hm, natCmp_eq]
      rcases Nat.lt_trichotomy x.d z.d with hd | hd | hd
      · rw [natCmp_lt hd]
        have := dayNum_lt_day hy hm hd
        simp
        omega
      · have hdn : dayNum x = dayNum z := by unfold dayNum; rw [hy, hm, hd]
        rw [hd, natCmp_eq]
        simp
        omega
      · rw [natCmp_gt hd]
        have := dayNum_lt_day (x := z) (z := x) hy.symm hm.symm hd
        simpa using this
    · rw [natCmp_gt hm]
      have := dayNum_lt_month (x := z) (z := x) hy.symm hz3 hz6 hx4 hx5 hm
      simpa using this
  · rw [natCmp_gt hy]
    have := dayNum_lt_year (x := z) (z := x) (by omega) hz3 hz4 hz6 hx5 hy
    simpa using this

/-- Rendered well-formed dates compare exactly as their triples. -/
theorem lexCmp_render {x z : YMD} (hx : WellFormedYMD x)
    (hz : WellFormedYMD z) :
    lexCmp (renderChars x) (renderChars z) = ymdCmp x z := by
  obtain ⟨hx1, hx2, hx3, hx4, hx5, hx6⟩ := hx
  obtain ⟨hz1, hz2, hz3, hz4, hz5, hz6⟩ := hz
  have hxd := daysInMonth_le x.y x.m
  have hzd := daysInMonth_le z.y z.m
  unfold renderChars ymdCmp
  rcases Nat.lt_trichotomy x.y z.y with hy | hy | hy
  · rw [lexCmp_block4_lt hx1 (by omega) hz1 (by omega) hy, natCmp_lt hy]
  · rw [hy, lexCmp_block4_eq hz1 (by omega), lexCmp_dash, natCmp_eq]
    rcases Nat.lt_trichotomy x.m z.m with hm | hm | hm
    · rw [lexCmp_block2_lt (by omega) (by omega) hm, natCmp_lt hm]
    · rw [hm, lexCmp_block2_eq (by omega), lexCmp_dash, natCmp_eq]
      rw [lexCmp_pad2 (by omega) (by omega)]
    · rw [lexCmp_block2_gt (by omega) (by omega) hm, natCmp_gt hm]
  · rw [lexCmp_block4_gt hx1 (by omega) hz1 (by omega) hy, natCmp_gt hy]

/-- The loop guard of `dateRangeChicago` on rendered well-formed dates is
exactly the day-index comparison. -/
theorem strLe_render_iff {x z : YMD} (hx : WellFormedYMD x)
    (hz : WellFormedYMD z) :
    strLe (renderYMD x) (renderYMD z) = true ↔ dayNum x ≤ dayNum z := by
  unfold strLe renderYMD
  rw [show (String.mk (renderChars x)).data = renderChars x from rfl,
    show (String.mk (renderChars z)).data = renderChars z from rfl,
    lexCmp_render hx hz, decide_eq_true_eq]
  rw [ne_eq, ymdCmp_gt_iff hx hz]
  omega

/-! ## Parsing a rendered date recovers the triple -/

/-- Splitting a dash-free field consumes it whole. -/
theorem splitDashAux_no_dash (cs : List Char) (h : ∀ c ∈ cs, c ≠ '-') :
    ∀ acc, splitDashAux acc cs = [acc.reverse ++ cs] := by
  induction cs with
  | nil => intro acc; simp [splitDashAux]
  | cons c rest ih =>
    intro acc
    have hc : c ≠ '-' := h c (by simp)
    simp only [splitDashAux, if_neg hc]
    rw [ih (fun x hx => h x (by simp [hx])) (c :: acc)]
    simp

/-- Splitting at the first separator yields the first field and
continues. -/
theorem splitDashAux_dash_split (cs : List Char) (h : ∀ c ∈ cs, c ≠ '-')
    (rest : List Char) : ∀ acc,
    splitDashAux acc (cs ++ '-' :: rest) =
      (acc.reverse ++ cs) :: splitDashAux [] rest := by
  induction cs with
  | nil =>
    intro acc
    simp [splitDashAux]
  | cons c cs' ih =>
    intro acc
    have hc : c ≠ '-' := h c (by simp)
    simp only [List.cons_append, splitDashAux, if_neg hc, List.append_eq]
    rw [ih (fun x hx => h x (by simp [hx])) (c :: acc)]
    simp

/-- Four-digit year blocks contain no separator. -/
theorem natDigits_four_no_dash {n : ℕ} (h1 : 1000 ≤ n) (h2 : n < 10000) :
    ∀ c ∈ natDigits n, c ≠ '-' := by
  rw [natDigits_four h1 h2]
  intro c hc
  simp only [List.mem_cons, List.not_mem_nil, or_false] at hc
  rcases hc with h | h | h | h <;> subst h <;>
    exact digitChar_ne_dash (by omega)

/-- Two-digit blocks contain no separator. -/
theorem pad2_no_dash {n : ℕ} (h : n < 100) : ∀ c ∈ pad2Chars n, c ≠ '-' := by
  rw [pad2Chars_eq h]
  intro c hc
  simp only [List.mem_cons, List.not_mem_nil, or_false] at hc
  rcases hc with h' | h' <;> subst h' <;>
    exact digitChar_ne_dash (by omega)

/-- `Number` of a four-digit block recovers the year. -/
theorem parseNat_four {n : ℕ} (h1 : 1000 ≤ n) (h2 : n < 10000) :
    parseNat (natDigits n) = n := by
  rw [natDigits_four h1 h2]
  simp only [parseNat, List.foldl_cons, List.foldl_nil,
    digitChar_toNat (show n / 1000 < 10 by omega),
    digitChar_toNat (show n / 100 % 10 < 10 by omega),
    digitChar_toNat (show n / 10 % 10 < 10 by omega),
    digitChar_toNat (show n % 10 < 10 by omega)]
  omega

/-- `Number` of a two-digit block recovers the month or day. -/
theorem parseNat_pad2 {n : ℕ} (h : n < 100) : parseNat (pad2Chars n) = n := by
  rw [pad2Chars_eq h]
  simp only [parseNat, List.foldl_cons, List.foldl_nil,
    digitChar_toNat (show n / 10 < 10 by omega),
    digitChar_toNat (show n % 10 < 10 by omega)]
  omega

/-- Parsing a rendered well-formed date recovers the triple. -/
theorem parseYMD_render {x : YMD} (h : WellFormedYMD x) :
    parseYMD (renderYMD x) = x := by
  obtain ⟨hy1, hy2, hm1, hm2, hd1, hd2⟩ := h
  have hm100 : x.m < 100 := by omega
  have hd100 : x.d < 100 := by
    have := daysInMonth_le x.y x.m
    omega
  unfold parseYMD renderYMD splitDash
  rw [show (String.mk (renderChars x)).data = renderChars x from rfl]
  unfold renderChars
  rw [splitDashAux_dash_split (natDigits x.y)
    (natDigits_four_no_dash hy1 (by omega)) _ []]
  rw [splitDashAux_dash_split (pad2Chars x.m) (pad2_no_dash hm100) _ []]
  rw [splitDashAux_no_dash (pad2Chars x.d) (pad2_no_dash hd100) []]
  simp only [List.reverse_nil, List.nil_append, List.map_cons, List.map_nil]
  rw [parseNat_four hy1 (by omega), parseNat_pad2 hm100, parseNat_pad2 hd100]

/-- `nextDayStr` on a rendered well-formed date renders its calendar
successor. -/
theorem nextDayStr_render {x : YMD} (h : WellFormedYMD x) :
    nextDayStr (renderYMD x) = renderYMD (nextDay x) := by
  unfold nextDayStr
  rw [parseYMD_render h]

/-! ## Correctness of the date-range loop -/

/-- The day index is injective on well-formed dates. -/
theorem dayNum_inj {a b : YMD} (ha : WellFormedYMD a) (hb : WellFormedYMD b)
    (h : dayNum a = dayNum b) : a = b := by
  obtain ⟨ha1, ha2, ha3, ha4, ha5, ha6⟩ := ha
  obtain ⟨hb1, hb2, hb3, hb4, hb5, hb6⟩ := hb
  rcases Nat.lt_trichotomy a.y b.y with hy | hy | hy
  · have := dayNum_lt_year (by omega) ha3 ha4 ha6 hb5 hy
    omega
  · rcases Nat.lt_trichotomy a.m b.m with hm | hm | hm
    · have := dayNum_lt_month hy ha3 ha6 hb4 hb5 hm
      omega
    · rcases Nat.lt_trichotomy a.d b.d with hd | hd | hd
      · have := dayNum_lt_day hy hm hd
        omega
      · obtain ⟨ay, am, ad⟩ := a
        obtain ⟨c1, c2, c3⟩ := b
        dsimp only at hy hm hd
        rw [hy, hm, hd]
      · have := dayNum_lt_day (x := b) (z := a) hy.symm hm.symm hd
        omega
    · have := dayNum_lt_month (x := b) (z := a) hy.symm hb3 hb6 ha4 ha5 hm
      omega
  · have := dayNum_lt_year (x := b) (z := a) (by omega) hb3 hb4 hb6 ha5 hy
    omega

/-- The fueled embedding of the `dateRangeChicago` loop computes exactly
the rendered consecutive dates, for any fuel at least the day span. -/
theorem dateRangeAux_spec (b : YMD) (hb : WellFormedYMD b)
    (hbne : b ≠ lastYMD) :
    ∀ fuel a, WellFormedYMD a → dayNum b + 1 - dayNum a + 1 ≤ fuel →
      dateRangeAux (renderYMD b) fuel (renderYMD a) =
        some ((iterDays (dayNum b + 1 - dayNum a) a).map renderYMD) := by
  intro fuel
  induction fuel with
  | zero =>
    intro a ha hf
    omega
  | succ f ih =>
    intro a ha hf
    by_cases hle : dayNum a ≤ dayNum b
    · have hguard : strLe (renderYMD a) (renderYMD b) = true :=
        (strLe_render_iff ha hb).mpr hle
      have hane : a ≠ lastYMD := by
        intro e
        have hlast := dayNum_lt_last hb hbne
        rw [e] at hle
        omega
      have ha' : WellFormedYMD (nextDay a) := nextDay_wf ha hane
      have hdn : dayNum (nextDay a) = dayNum a + 1 := dayNum_nextDay ha
      simp only [dateRangeAux, hguard, if_true]
      rw [nextDayStr_render ha, ih (nextDay a) ha' (by omega)]
      have hcount : dayNum b + 1 - dayNum a =
          (dayNum b + 1 - dayNum (nextDay a)) + 1 := by omega
      rw [hcount]
      simp [iterDays]
    · have hguard : strLe (renderYMD a) (renderYMD b) = false := by
        rcases Bool.eq_false_or_eq_true (strLe (renderYMD a) (renderYMD b)) with
          ht | hf'
        · exact absurd ((strLe_render_iff ha hb).mp ht) hle
        · exact hf'
      simp only [dateRangeAux, hguard]
      have hcount : dayNum b + 1 - dayNum a = 0 := by omega
      rw [hcount]
      simp [iterDays]

/-- The last of `n + 1` consecutive dates ending at the day index of `b`
is `b` itself. -/
theorem iterDays_last (b : YMD) (hb : WellFormedYMD b) (hbne : b ≠ lastYMD) :
    ∀ n a, WellFormedYMD a → dayNum a + n = dayNum b →
      (iterDays (n + 1) a).getLast? = some b := by
  intro n
  induction n with
  | zero =>
    intro a ha hsum
    have hab : a = b := dayNum_inj ha hb (by omega)
    subst hab
    rfl
  | succ n ih =>
    intro a ha hsum
    have hane : a ≠ lastYMD := by
      intro e
      have h1 := dayNum_lt_last hb hbne
      rw [e] at hsum
      omega
    have ha' := nextDay_wf ha hane
    have hdn := dayNum_nextDay ha
    have hexp : iterDays (n + 1 + 1) a =
        a :: nextDay a :: iterDays n (nextDay (nextDay a)) := rfl
    rw [hexp, List.getLast?_cons_cons]
    exact ih (nextDay a) ha' (by omega)

/-! ## Claim C9: `dateRangeChicago` -/

/-- Claim C9 as stated is false on the repository: for the well-formed
pair fromStr = toStr = "9999-12-31" the loop does not return the singleton
["9999-12-31"].  The calendar successor "10000-01-01" compares
lexicographically below "9999-12-31" (its first code unit '1' is below
'9'), so the `while (current <= toStr)` guard stays true and the computed
list continues past the range (the loop only stops tens of thousands of
years later). -/
theorem claim9_overrun_cex :
    ¬ rangeResultIs "9999-12-31" "9999-12-31" ["9999-12-31"] := by
  rintro ⟨n, hn⟩
  have h := hn (n + 2) (by omega)
  have hg1 : strLe "9999-12-31" "9999-12-31" = true := by decide
  have hnd1 : nextDayStr "9999-12-31" = "10000-01-01" := by decide
  have hg2 : strLe "10000-01-01" "9999-12-31" = true := by decide
  simp only [dateRangeChicago, dateRangeAux, hg1, hnd1, hg2, if_true] at h
  rcases hres : dateRangeAux "9999-12-31" n (nextDayStr "10000-01-01") with
    _ | l
  · rw [hres] at h
    simp at h
  · rw [hres] at h
    simp at h

/-- Claim C9 (amended): for every pair of well-formed `YYYY-MM-DD` dates
whose upper end is not 9999-12-31, `dateRangeChicago(fromStr, toStr)`
terminates (some fuel suffices and every larger fuel agrees) and returns
exactly the consecutive calendar dates from fromStr to toStr inclusive in
increasing order: the rendered chain of `nextDay` successors starting at
`a`, one date per day index from `a` to `b`, ending at `b`; when
fromStr > toStr the count is zero and the list is empty. -/
theorem claim9_date_range (a b : YMD) (ha : WellFormedYMD a)
    (hb : WellFormedYMD b) (hbne : b ≠ lastYMD) :
    rangeResultIs (renderYMD a) (renderYMD b)
      ((iterDays (dayNum b + 1 - dayNum a) a).map renderYMD)
    ∧ (dayNum a ≤ dayNum b →
        (iterDays (dayNum b + 1 - dayNum a) a).getLast? = some b)
    ∧ (dayNum b < dayNum a → dayNum b + 1 - dayNum a = 0) := by
  refine ⟨⟨dayNum b + 1 - dayNum a + 1, ?_⟩, ?_, ?_⟩
  · intro fuel hf
    exact dateRangeAux_spec b hb hbne fuel a ha (by omega)
  · intro hle
    have hc : dayNum b + 1 - dayNum a = (dayNum b - dayNum a) + 1 := by omega
    rw [hc]
    exact iterDays_last b hb hbne (dayNum b - dayNum a) a ha (by omega)
  · intro hgt
    omega

/-- Witness for claim C9 (amended) on the concrete range from 2026-02-27
to 2026-03-02 (a February-to-March rollover in a common year). -/
theorem claim9_date_range_witness :
    rangeResultIs (renderYMD ⟨2026, 2, 27⟩) (renderYMD ⟨2026, 3, 2⟩)
      ((iterDays (dayNum ⟨2026, 3, 2⟩ + 1 - dayNum ⟨2026, 2, 27⟩)
        ⟨2026, 2, 27⟩).map renderYMD)
    ∧ (dayNum ⟨2026, 2, 27⟩ ≤ dayNum ⟨2026, 3, 2⟩ →
        (iterDays (dayNum ⟨2026, 3, 2⟩ + 1 - dayNum ⟨2026, 2, 27⟩)
          ⟨2026, 2, 27⟩).getLast? = some ⟨2026, 3, 2⟩)
    ∧ (dayNum ⟨2026, 3, 2⟩ < dayNum ⟨2026, 2, 27⟩ →
        dayNum ⟨2026, 3, 2⟩ + 1 - dayNum ⟨2026, 2, 27⟩ = 0) :=
  claim9_date_range ⟨2026, 2, 27⟩ ⟨2026, 3, 2⟩ (by decide) (by decide)
    (by decide)
